import Mathlib

/-!
Shallow embedding of the `cheat-chat` Socket.IO server (the single server
source file: Redis-backed room/presence/message logic plus the socket event
handlers).  Redis hashes and sets are modelled as association lists, the
per-room message index (a Redis sorted set) as a list of (score, member)
pairs kept in ascending (score, member) order, matching ZADD/ZRANGE/
ZREMRANGEBYRANK semantics.  Each socket handler becomes a pure function
from server state and event inputs to the new state and the ordered list
of emitted events; clock reads (`Date.now()`, `toISOString()`) become
explicit parameters.
-/

namespace CheatChat

/-- `interface User` from the server source. -/
structure User where
  id : String
  username : String
  room : String
  joinedAt : String
deriving DecidableEq, Repr

/-- `interface ChatMessage` from the server source. -/
structure ChatMessage where
  id : String
  username : String
  message : String
  timestamp : String
  room : String
deriving DecidableEq, Repr

/-! ### Association lists: JS `Map` and Redis hash keys.

JS `Map.set` keeps the original insertion position when overwriting an
existing key and appends at the end otherwise; `Map.delete` removes the
entry.  Redis string-keyed hashes behave the same for our purposes. -/

/-- `Map.set` / Redis key write: replace in place, else append. -/
def alSet {α : Type} (k : String) (v : α) : List (String × α) → List (String × α)
  | [] => [(k, v)]
  | p :: rest => if p.1 = k then (k, v) :: rest else p :: alSet k v rest

/-- `Map.get` / Redis key read. -/
def alGet {α : Type} (k : String) : List (String × α) → Option α
  | [] => none
  | p :: rest => if p.1 = k then some p.2 else alGet k rest

/-- `Map.delete` / Redis `DEL`: drop the key's entry. -/
def alDel {α : Type} (k : String) : List (String × α) → List (String × α)
  | [] => []
  | p :: rest => if p.1 = k then alDel k rest else p :: alDel k rest

/-! ### Redis sets (`SADD` / `SREM` / `SMEMBERS`). -/

/-- `SADD`: no-op when the member is present, else append. -/
def setAdd (x : String) (s : List String) : List String :=
  if x ∈ s then s else s ++ [x]

/-- `SREM`. -/
def setRem (x : String) (s : List String) : List String :=
  s.filter (fun y => y ≠ x)

/-! ### Redis sorted sets.

An entry is a (score, member) pair; the list is kept in ascending
(score, then member) order, which is the iteration order `ZRANGE` uses. -/

/-- Strict sorted-set order: by score, ties broken by member. -/
def zlt (a b : Nat × String) : Prop :=
  a.1 < b.1 ∨ (a.1 = b.1 ∧ a.2 < b.2)

instance : DecidableRel zlt := fun a b => by
  unfold zlt; infer_instance

/-- Insert an entry at its sorted position. -/
def zsetInsert (e : Nat × String) : List (Nat × String) → List (Nat × String)
  | [] => [e]
  | f :: rest => if zlt e f then e :: f :: rest else f :: zsetInsert e rest

/-- `ZADD key score member`: replace the member's score, keeping order. -/
def zAdd (score : Nat) (member : String) (z : List (Nat × String)) : List (Nat × String) :=
  zsetInsert (score, member) (z.filter (fun p => p.2 ≠ member))

/-- `ZRANGE key (-limit) (-1)`: the members of the last `limit` entries,
in ascending order. -/
def zRangeLastMembers (limit : Nat) (z : List (Nat × String)) : List String :=
  (z.drop (z.length - limit)).map (fun p => p.2)

/-- `ZREMRANGEBYRANK key 0 (-(cap+1))`: drop all but the last `cap`
entries (removes nothing when the set has at most `cap` entries). -/
def zTrimKeepLast (cap : Nat) (z : List (Nat × String)) : List (Nat × String) :=
  z.drop (z.length - cap)

/-! ### The persisted (Redis) state. -/

/-- The data-client keyspace: `user:{id}` hashes with their TTL,
`message:{id}` hashes, `room:{room}:users` sets and
`room:{room}:messages` sorted sets. -/
structure Redis where
  userHash : List (String × User)
  userExpiry : List (String × Nat)
  messageHash : List (String × ChatMessage)
  roomUsers : List (String × List String)
  roomMessages : List (String × List (Nat × String))
deriving DecidableEq, Repr

def Redis.empty : Redis :=
  { userHash := [], userExpiry := [], messageHash := [], roomUsers := [], roomMessages := [] }

/-- The `room:{room}:users` set (empty when the key is absent). -/
def Redis.usersOf (r : Redis) (room : String) : List String :=
  (alGet room r.roomUsers).getD []

/-- The `room:{room}:messages` sorted set (empty when the key is absent). -/
def Redis.messagesOf (r : Redis) (room : String) : List (Nat × String) :=
  (alGet room r.roomMessages).getD []

/-- `saveUserToRedis`: write the `user:{id}` hash, `SADD` the id to the
room's user set, and set a 86400-second expiration on the user key. -/
def saveUserToRedis (u : User) (now : Nat) (r : Redis) : Redis :=
  { r with
    userHash := alSet u.id u r.userHash
    roomUsers := alSet u.room (setAdd u.id (r.usersOf u.room)) r.roomUsers
    userExpiry := alSet u.id (now + 86400) r.userExpiry }

/-- `removeUserFromRedis`: `DEL user:{id}` and `SREM` from the room's set. -/
def removeUserFromRedis (userId room : String) (r : Redis) : Redis :=
  { r with
    userHash := alDel userId r.userHash
    userExpiry := alDel userId r.userExpiry
    roomUsers := alSet room (setRem userId (r.usersOf room)) r.roomUsers }

/-- `saveChatMessage`: write the `message:{id}` hash, `ZADD` the id to
the room's message index with the current time as score, then trim the
index to its last 100 entries. -/
def saveChatMessage (m : ChatMessage) (now : Nat) (r : Redis) : Redis :=
  { r with
    messageHash := alSet m.id m r.messageHash
    roomMessages := alSet m.room
      (zTrimKeepLast 100 (zAdd now m.id (r.messagesOf m.room))) r.roomMessages }

/-- The `if (messageData.id)` truthiness check on a fetched hash: an
absent key and an empty-id record are both skipped. -/
def lookupMessage (r : Redis) (mid : String) : Option ChatMessage :=
  (alGet mid r.messageHash).bind (fun m => if m.id = "" then none else some m)

/-- `getRoomMessages(room, limit)`: resolve the last `limit` ids of the
room's index to message records, silently skipping unresolvable ids. -/
def getRoomMessages (room : String) (limit : Nat) (r : Redis) : List ChatMessage :=
  (zRangeLastMembers limit (r.messagesOf room)).filterMap (lookupMessage r)

/-- The `if (userData.id)` truthiness check on a fetched user hash. -/
def lookupUser (r : Redis) (uid : String) : Option User :=
  (alGet uid r.userHash).bind (fun u => if u.id = "" then none else some u)

/-- `getRoomUsers(room)`: resolve the room's persisted user-id set to
user records, silently skipping unresolvable ids. -/
def getRoomUsers (room : String) (r : Redis) : List User :=
  (r.usersOf room).filterMap (lookupUser r)

/-! ### Server state and emitted events. -/

/-- The whole server: the in-memory `activeUsers` map (insertion-ordered,
as a JS `Map`) plus the Redis data store. -/
structure ServerState where
  activeUsers : List (String × User)
  redis : Redis
deriving DecidableEq, Repr

def ServerState.initial : ServerState :=
  { activeUsers := [], redis := Redis.empty }

/-- Payloads of the server-to-client events. -/
inductive OutEvent where
  | userLeft (username message room : String)
  | userJoined (username message room : String)
  | roomJoined (room username message : String)
  | roomUsers (users : List (String × String))
  | chatHistory (msgs : List ChatMessage)
  | newMessage (m : ChatMessage)
  | userTyping (username : String) (isTyping : Bool)
deriving DecidableEq, Repr

/-- An emitted event together with its routing: `socket.to(room).emit`
(everyone in the room except the sender), `io.to(room).emit` (everyone in
the room) or `socket.emit` (the one connection). -/
inductive Effect where
  | toRoomExceptSender (senderId room : String) (e : OutEvent)
  | toRoom (room : String) (e : OutEvent)
  | toSocket (socketId : String) (e : OutEvent)
deriving DecidableEq, Repr

/-- The `room-users` payload: the values of `activeUsers` with the given
room, projected to `{id, username}`. -/
def liveRoomUsers (active : List (String × User)) (room : String) : List (String × String) :=
  ((active.map (fun p => p.2)).filter (fun u => u.room = room)).map (fun u => (u.id, u.username))

/-! ### Event handlers.

Each handler returns the new server state and the emitted effects in
program order.  Clock reads are explicit parameters: `joinedAt` stands
for the `toISOString()` read in `join-room`, and in `send-message` the
id comes from one `Date.now()` read while each `saveChatMessage` call
performs its own `Date.now()` read for the `ZADD` score. -/

/-- The `join-room` handler: leave the previous room (if any) with a
"user left" notice there, overwrite the `activeUsers` entry, persist the
user, notify the new room, confirm to the joiner, broadcast the live
participant list, and send the last-50-message history to the joiner. -/
def joinRoom (s : ServerState) (sid username room joinedAt : String) (now : Nat) :
    ServerState × List Effect :=
  let leaveEffects : List Effect :=
    match alGet sid s.activeUsers with
    | none => []
    | some prev =>
      [Effect.toRoomExceptSender sid prev.room
        (OutEvent.userLeft prev.username (prev.username ++ " left the room") prev.room)]
  let newUser : User := { id := sid, username := username, room := room, joinedAt := joinedAt }
  let active1 := alSet sid newUser s.activeUsers
  let redis1 := saveUserToRedis newUser now s.redis
  ({ activeUsers := active1, redis := redis1 },
    leaveEffects ++
    [Effect.toRoomExceptSender sid room
        (OutEvent.userJoined username (username ++ " joined the room") room),
      Effect.toSocket sid
        (OutEvent.roomJoined room username ("Welcome to " ++ room ++ "!")),
      Effect.toRoom room (OutEvent.roomUsers (liveRoomUsers active1 room)),
      Effect.toSocket sid (OutEvent.chatHistory (getRoomMessages room 50 redis1))])

/-- One step of the `send-message` handler body: a persistence step
(a `saveChatMessage` call with the score its internal `Date.now()` read
will use) or the `new-message` broadcast. -/
inductive SendAction where
  | appendMsg (m : ChatMessage) (score : Nat)
  | emitNewMessage (room : String) (m : ChatMessage)
deriving DecidableEq, Repr

/-- The `messageData` object built by `send-message`: the id is
`Date.now().toString()` (the decimal rendering of the `tId` clock read),
the timestamp the `toISOString()` read, the room the sender's room. -/
def sentMessage (user : User) (body : String) (tId : Nat) (ts : String) : ChatMessage :=
  { id := Nat.repr tId, username := user.username, message := body,
    timestamp := ts, room := user.room }

/-- The `send-message` handler in program order: for a joined sender,
build the message (`tId` is the `Date.now()` read for the id, `ts` the
`toISOString()` read), then `await saveChatMessage`, then broadcast,
then call `saveChatMessage` once more; for an unjoined sender, nothing.
`t1` and `t2` are the `Date.now()` reads inside the two
`saveChatMessage` calls. -/
def sendTrace (s : ServerState) (sid body : String) (tId t1 t2 : Nat) (ts : String) :
    List SendAction :=
  match alGet sid s.activeUsers with
  | none => []
  | some user =>
    let m := sentMessage user body tId ts
    [SendAction.appendMsg m t1, SendAction.emitNewMessage user.room m,
      SendAction.appendMsg m t2]

/-- Effect of one send-message step on the store. -/
def applySendAction (r : Redis) : SendAction → Redis
  | SendAction.appendMsg m t => saveChatMessage m t r
  | SendAction.emitNewMessage _ _ => r

/-- Broadcast produced by one send-message step, if any. -/
def sendActionEffect : SendAction → Option Effect
  | SendAction.appendMsg _ _ => none
  | SendAction.emitNewMessage room m => some (Effect.toRoom room (OutEvent.newMessage m))

/-- The `send-message` handler: the state reached by running its steps in
order, and the effects those steps emit. -/
def sendMessage (s : ServerState) (sid body : String) (tId t1 t2 : Nat) (ts : String) :
    ServerState × List Effect :=
  let tr := sendTrace s sid body tId t1 t2 ts
  ({ s with redis := tr.foldl applySendAction s.redis }, tr.filterMap sendActionEffect)

/-- The `typing-start` handler: for a joined sender, broadcast a typing
notice to the rest of the room; otherwise nothing.  No state change. -/
def typingStart (s : ServerState) (sid : String) : ServerState × List Effect :=
  match alGet sid s.activeUsers with
  | none => (s, [])
  | some user =>
    (s, [Effect.toRoomExceptSender sid user.room (OutEvent.userTyping user.username true)])

/-- The `typing-stop` handler, identical but with `isTyping: false`. -/
def typingStop (s : ServerState) (sid : String) : ServerState × List Effect :=
  match alGet sid s.activeUsers with
  | none => (s, [])
  | some user =>
    (s, [Effect.toRoomExceptSender sid user.room (OutEvent.userTyping user.username false)])

/-- The `disconnect` handler: for a connection with an active record,
notify its room, delete the record from the map and from Redis, and
broadcast the updated live list; otherwise nothing. -/
def disconnect (s : ServerState) (sid : String) : ServerState × List Effect :=
  match alGet sid s.activeUsers with
  | none => (s, [])
  | some user =>
    let active1 := alDel sid s.activeUsers
    ({ activeUsers := active1, redis := removeUserFromRedis sid user.room s.redis },
      [Effect.toRoomExceptSender sid user.room
          (OutEvent.userLeft user.username (user.username ++ " left the room") user.room),
        Effect.toRoom user.room (OutEvent.roomUsers (liveRoomUsers active1 user.room))])

/-! ### Derived definitions used by the statements. -/

/-- The event carried by an effect, regardless of routing. -/
def effectPayload : Effect → OutEvent
  | Effect.toRoomExceptSender _ _ e => e
  | Effect.toRoom _ e => e
  | Effect.toSocket _ e => e

/-- Run a sequence of `saveChatMessage` calls (message together with the
`Date.now()` score of its `ZADD`). -/
def appendAll (l : List (ChatMessage × Nat)) (r : Redis) : Redis :=
  l.foldl (fun acc p => saveChatMessage p.1 p.2 acc) r

/-- Concrete append sequences used as witnesses: `n` messages in room
"demo" with distinct ids and strictly increasing scores. -/
def demoPairs (n : Nat) : List (ChatMessage × Nat) :=
  (List.range n).map (fun i =>
    ({ id := Nat.repr (i + 1), username := "u", message := "m",
       timestamp := Nat.repr (i + 1), room := "demo" }, i + 1))

/-- A server with one connection "c1" joined to room "r1". -/
def demoJoined : ServerState :=
  (joinRoom ServerState.initial "c1" "alice" "r1" "t0" 0).1

/-- A server whose room "demo" holds 50 persisted messages. -/
def demoServer50 : ServerState :=
  { activeUsers := [], redis := appendAll (demoPairs 50) Redis.empty }

/-! ### Association-list lemmas. -/

theorem alGet_alSet_self {α : Type} (k : String) (v : α) (l : List (String × α)) :
    alGet k (alSet k v l) = some v := by
  induction l with
  | nil => simp [alSet, alGet]
  | cons p rest ih =>
    by_cases h : p.1 = k
    · simp [alSet, alGet, h]
    · simp [alSet, alGet, h, ih]

theorem alGet_alSet_ne {α : Type} {k' k : String} (v : α) (l : List (String × α))
    (h : k' ≠ k) : alGet k' (alSet k v l) = alGet k' l := by
  have hk : ¬ k = k' := fun hh => h hh.symm
  induction l with
  | nil => simp [alSet, alGet, hk]
  | cons p rest ih =>
    by_cases hp : p.1 = k
    · simp [alSet, alGet, hp, hk]
    · simp [alSet, alGet, hp, ih]

theorem alGet_alDel_self {α : Type} (k : String) (l : List (String × α)) :
    alGet k (alDel k l) = none := by
  induction l with
  | nil => simp [alDel, alGet]
  | cons p rest ih =>
    by_cases h : p.1 = k
    · simpa [alDel, h] using ih
    · simp [alDel, alGet, h, ih]

theorem alGet_alDel_ne {α : Type} {k' k : String} (l : List (String × α))
    (h : k' ≠ k) : alGet k' (alDel k l) = alGet k' l := by
  have hk : ¬ k = k' := fun hh => h hh.symm
  induction l with
  | nil => simp [alDel, alGet]
  | cons p rest ih =>
    by_cases hp : p.1 = k
    · simp [alDel, alGet, hp, hk, ih]
    · simp [alDel, alGet, hp, ih]

theorem alSet_alSet_self {α : Type} (k : String) (v v' : α) (l : List (String × α)) :
    alSet k v (alSet k v' l) = alSet k v l := by
  induction l with
  | nil => simp [alSet]
  | cons p rest ih =>
    by_cases h : p.1 = k
    · simp [alSet, h]
    · simp [alSet, h, ih]

theorem pair_mem_alSet {α : Type} (k : String) (v : α) (l : List (String × α)) :
    (k, v) ∈ alSet k v l := by
  induction l with
  | nil => simp [alSet]
  | cons p rest ih =>
    by_cases h : p.1 = k
    · simp [alSet, h]
    · simp [alSet, h, ih]

/-! ### Sorted-set lemmas. -/

theorem zsetInsert_length (e : Nat × String) (z : List (Nat × String)) :
    (zsetInsert e z).length = z.length + 1 := by
  induction z with
  | nil => simp [zsetInsert]
  | cons f rest ih =>
    by_cases h : zlt e f
    · simp [zsetInsert, h]
    · simp [zsetInsert, h, ih]

theorem zsetInsert_eq_append (e : Nat × String) (z : List (Nat × String))
    (h : ∀ f ∈ z, zlt f e) : zsetInsert e z = z ++ [e] := by
  induction z with
  | nil => simp [zsetInsert]
  | cons f rest ih =>
    have hfe : zlt f e := h f (by simp)
    have : ¬ zlt e f := by
      rcases hfe with hlt | ⟨heq, hmem⟩
      · rintro (hlt' | ⟨heq', _⟩) <;> omega
      · rintro (hlt' | ⟨heq', hmem'⟩)
        · omega
        · exact absurd (hmem.trans hmem') (lt_irrefl _)
    simp only [zsetInsert, if_neg this, List.cons_append]
    exact congrArg _ (ih fun f hf => h f (by simp [hf]))

theorem filter_zsetInsert (t : Nat) (mid : String) (z : List (Nat × String)) :
    (zsetInsert (t, mid) z).filter (fun p => p.2 ≠ mid) =
      z.filter (fun p => p.2 ≠ mid) := by
  induction z with
  | nil => simp [zsetInsert]
  | cons f rest ih =>
    by_cases h : zlt (t, mid) f
    · simp [zsetInsert, h, List.filter_cons]
    · simp only [zsetInsert, if_neg h, List.filter_cons, ih]

theorem filter_eq_self_of_ne (mid : String) (z : List (Nat × String))
    (h : ∀ f ∈ z, f.2 ≠ mid) : z.filter (fun p => p.2 ≠ mid) = z := by
  rw [List.filter_eq_self]
  intro a ha
  simpa using h a ha

theorem zTrimKeepLast_eq_self {cap : Nat} {z : List (Nat × String)}
    (h : z.length ≤ cap) : zTrimKeepLast cap z = z := by
  have : z.length - cap = 0 := by omega
  simp [zTrimKeepLast, this]

theorem zTrimKeepLast_length_le (cap : Nat) (z : List (Nat × String)) :
    (zTrimKeepLast cap z).length ≤ cap := by
  simp only [zTrimKeepLast, List.length_drop]
  omega

theorem zTrimKeepLast_cons_of_length {x : Nat × String} {tail : List (Nat × String)}
    (h : tail.length = 100) : zTrimKeepLast 100 (x :: tail) = tail := by
  have h1 : (x :: tail).length - 100 = 1 := by simp [h]
  rw [zTrimKeepLast, h1]
  rfl

/-! ### Redis set lemmas. -/

theorem mem_setAdd_self (x : String) (s : List String) : x ∈ setAdd x s := by
  by_cases h : x ∈ s <;> simp [setAdd, h]

theorem mem_setRem (y x : String) (s : List String) :
    y ∈ setRem x s ↔ y ∈ s ∧ y ≠ x := by
  simp [setRem, List.mem_filter]

/-! ### Frame lemmas for the Redis operations. -/

theorem usersOf_saveUserToRedis_self (u : User) (now : Nat) (r : Redis) :
    (saveUserToRedis u now r).usersOf u.room = setAdd u.id (r.usersOf u.room) := by
  simp [saveUserToRedis, Redis.usersOf, alGet_alSet_self]

theorem usersOf_saveUserToRedis_ne {room : String} (u : User) (now : Nat) (r : Redis)
    (h : room ≠ u.room) :
    (saveUserToRedis u now r).usersOf room = r.usersOf room := by
  simp [saveUserToRedis, Redis.usersOf, alGet_alSet_ne _ _ h]

theorem messagesOf_saveChatMessage_self (m : ChatMessage) (t : Nat) (r : Redis) :
    (saveChatMessage m t r).messagesOf m.room
      = zTrimKeepLast 100 (zAdd t m.id (r.messagesOf m.room)) := by
  simp [saveChatMessage, Redis.messagesOf, alGet_alSet_self]

theorem messagesOf_saveChatMessage_ne {room : String} (m : ChatMessage) (t : Nat) (r : Redis)
    (h : room ≠ m.room) :
    (saveChatMessage m t r).messagesOf room = r.messagesOf room := by
  simp [saveChatMessage, Redis.messagesOf, alGet_alSet_ne _ _ h]

theorem alGet_messageHash_saveChatMessage_self (m : ChatMessage) (t : Nat) (r : Redis) :
    alGet m.id (saveChatMessage m t r).messageHash = some m := by
  simp [saveChatMessage, alGet_alSet_self]

theorem alGet_messageHash_saveChatMessage_ne {mid : String} (m : ChatMessage) (t : Nat)
    (r : Redis) (h : mid ≠ m.id) :
    alGet mid (saveChatMessage m t r).messageHash = alGet mid r.messageHash := by
  simp [saveChatMessage, alGet_alSet_ne _ _ h]

theorem getRoomMessages_saveUserToRedis (room : String) (lim : Nat) (u : User) (now : Nat)
    (r : Redis) :
    getRoomMessages room lim (saveUserToRedis u now r) = getRoomMessages room lim r := rfl

/-! ### Idempotency of `saveChatMessage` on the sorted set (the heart of
the double-save analysis): re-adding the same member with the later of
the two scores, starting from an index within the cap, is the same as a
single add with that score. -/

theorem zlt_mono_score {t1 t2 : Nat} {mid : String} {f : Nat × String}
    (ht : t1 ≤ t2) (h : ¬ zlt (t1, mid) f) : ¬ zlt (t2, mid) f := by
  rintro (hlt | ⟨heq2, hmem⟩)
  · exact h (Or.inl (by simp only at hlt ⊢; omega))
  · rcases lt_or_eq_of_le ht with h' | h'
    · exact h (Or.inl (by simp only at heq2 ⊢; omega))
    · exact h (Or.inr ⟨by simp only at heq2 ⊢; omega, hmem⟩)

theorem zsave_zsave (mid : String) (t1 t2 : Nat) (z : List (Nat × String))
    (hlen : z.length ≤ 100) (ht : t1 ≤ t2) :
    zTrimKeepLast 100 (zAdd t2 mid (zTrimKeepLast 100 (zAdd t1 mid z)))
      = zTrimKeepLast 100 (zAdd t2 mid z) := by
  have hw : ∀ f ∈ z.filter (fun p => p.2 ≠ mid), f.2 ≠ mid := by
    intro f hf
    simpa using (List.mem_filter.mp hf).2
  have hwlen : (z.filter (fun p => p.2 ≠ mid)).length ≤ 100 :=
    le_trans (List.length_filter_le _ _) hlen
  simp only [zAdd]
  generalize hgen : z.filter (fun p => p.2 ≠ mid) = w at hw hwlen ⊢
  rcases lt_or_eq_of_le hwlen with hlt | hlen100
  · have hA : (zsetInsert (t1, mid) w).length ≤ 100 := by
      rw [zsetInsert_length]; omega
    rw [zTrimKeepLast_eq_self hA, filter_zsetInsert t1 mid w,
      filter_eq_self_of_ne mid w hw]
  · rcases w with _ | ⟨w0, wrest⟩
    · simp at hlen100
    · have hrest : wrest.length = 99 := by
        simp only [List.length_cons] at hlen100; omega
      have hw0 : w0.2 ≠ mid := hw w0 (by simp)
      have hwrest : ∀ f ∈ wrest, f.2 ≠ mid := fun f hf => hw f (by simp [hf])
      by_cases hcmp : zlt (t1, mid) w0
      · rw [show zsetInsert (t1, mid) (w0 :: wrest) = (t1, mid) :: w0 :: wrest from by
            simp [zsetInsert, hcmp]]
        rw [zTrimKeepLast_cons_of_length (by simpa using hlen100.symm),
          filter_eq_self_of_ne mid (w0 :: wrest) hw]
      · rw [show zsetInsert (t1, mid) (w0 :: wrest) = w0 :: zsetInsert (t1, mid) wrest from by
            simp [zsetInsert, hcmp]]
        have hinsrest : (zsetInsert (t1, mid) wrest).length = 100 := by
          rw [zsetInsert_length, hrest]
        rw [zTrimKeepLast_cons_of_length hinsrest, filter_zsetInsert t1 mid wrest,
          filter_eq_self_of_ne mid wrest hwrest]
        have hcmp2 : ¬ zlt (t2, mid) w0 := zlt_mono_score ht hcmp
        rw [show zsetInsert (t2, mid) (w0 :: wrest) = w0 :: zsetInsert (t2, mid) wrest from by
            simp [zsetInsert, hcmp2]]
        have hins2 : (zsetInsert (t2, mid) wrest).length = 100 := by
          rw [zsetInsert_length, hrest]
        rw [zTrimKeepLast_cons_of_length hins2, zTrimKeepLast_eq_self (le_of_eq hins2)]

theorem zAdd_length_le (t : Nat) (mid : String) (z : List (Nat × String)) :
    (zAdd t mid z).length ≤ z.length + 1 := by
  simp only [zAdd, zsetInsert_length]
  have := List.length_filter_le (fun p => decide (p.2 ≠ mid)) z
  omega

theorem zTrimKeepLast_length_le_self (cap : Nat) (z : List (Nat × String)) :
    (zTrimKeepLast cap z).length ≤ z.length := by
  simp only [zTrimKeepLast, List.length_drop]
  omega

/-- Double save with the same message: the second call overwrites the
same `message:{id}` hash entry and re-adds the same sorted-set member,
so the state equals that of a single save (at the later score). -/
theorem saveChatMessage_idem (m : ChatMessage) (t1 t2 : Nat) (r : Redis)
    (hlen : (r.messagesOf m.room).length ≤ 100) (ht : t1 ≤ t2) :
    saveChatMessage m t2 (saveChatMessage m t1 r) = saveChatMessage m t2 r := by
  have hz := zsave_zsave m.id t1 t2 (r.messagesOf m.room) hlen ht
  simp only [Redis.messagesOf] at hz
  simp only [saveChatMessage, Redis.messagesOf, alGet_alSet_self, Option.getD_some,
    alSet_alSet_self]
  rw [hz]

/-! ### Generic list helpers. -/

theorem filterMap_map_eq_map {α β γ : Type} (g : β → Option γ) (h : α → β) (k : α → γ)
    (xs : List α) (H : ∀ x ∈ xs, g (h x) = some (k x)) :
    (xs.map h).filterMap g = xs.map k := by
  induction xs with
  | nil => simp
  | cons x rest ih =>
    have hx := H x (by simp)
    simp [List.filterMap_cons, hx, ih fun y hy => H y (by simp [hy])]

theorem filterMap_length_of_isSome {α β : Type} (g : α → Option β) (xs : List α)
    (H : ∀ x ∈ xs, (g x).isSome) : (xs.filterMap g).length = xs.length := by
  induction xs with
  | nil => simp
  | cons x rest ih =>
    have hx := H x (by simp)
    obtain ⟨y, hy⟩ := Option.isSome_iff_exists.mp hx
    simp [List.filterMap_cons, hy, ih fun z hz => H z (by simp [hz])]

theorem drop_trim_append {α : Type} (A : List α) (x : α) :
    (A.drop (A.length - 100) ++ [x]).drop ((A.drop (A.length - 100)).length + 1 - 100)
      = (A ++ [x]).drop (A.length + 1 - 100) := by
  by_cases h : A.length ≤ 100
  · have h0 : A.length - 100 = 0 := by omega
    rw [h0]
    simp
  · have h1 : (A.drop (A.length - 100)).length = 100 := by
      rw [List.length_drop]; omega
    rw [h1]
    have h2 : (100 : Nat) + 1 - 100 = 1 := by omega
    rw [h2]
    have h3 : (1 : Nat) ≤ (A.drop (A.length - 100)).length := by omega
    rw [List.drop_append_of_le_length h3, List.drop_drop,
      List.drop_append_of_le_length (by omega : A.length + 1 - 100 ≤ A.length)]
    congr 2
    omega

theorem liveRoomUsers_mem_of {rm : String} (active : List (String × User)) (k : String)
    (u : User) (hu : (k, u) ∈ active) (h : u.room = rm) :
    (u.id, u.username) ∈ liveRoomUsers active rm := by
  refine List.mem_map.mpr ⟨u, List.mem_filter.mpr ⟨?_, by simp [h]⟩, rfl⟩
  exact List.mem_map.mpr ⟨(k, u), hu, rfl⟩

/-! ### The append sequence: cap and contents of the room's log. -/

theorem zTrim_drop_append (A : List (Nat × String)) (x : Nat × String) :
    zTrimKeepLast 100 (A.drop (A.length - 100) ++ [x])
      = (A ++ [x]).drop (A.length + 1 - 100) := by
  have h := drop_trim_append A x
  simpa [zTrimKeepLast, List.length_append] using h

theorem appendAll_append (l : List (ChatMessage × Nat)) (p : ChatMessage × Nat) (r : Redis) :
    appendAll (l ++ [p]) r = saveChatMessage p.1 p.2 (appendAll l r) := by
  simp [appendAll, List.foldl_append]

theorem appendAll_cap (l : List (ChatMessage × Nat)) (r : Redis)
    (h : ∀ room, (r.messagesOf room).length ≤ 100) :
    ∀ room, ((appendAll l r).messagesOf room).length ≤ 100 := by
  induction l generalizing r with
  | nil => exact h
  | cons p rest ih =>
    refine ih (saveChatMessage p.1 p.2 r) (fun room => ?_)
    by_cases hr : room = p.1.room
    · subst hr
      rw [messagesOf_saveChatMessage_self]
      exact zTrimKeepLast_length_le _ _
    · rw [messagesOf_saveChatMessage_ne _ _ _ hr]
      exact h room

/-- The log contents after a fresh append sequence: the index holds the
(score, id) pairs of the last 100 appends, and every appended message's
hash record is retrievable. -/
theorem appendAll_spec (rm : String) (l : List (ChatMessage × Nat))
    (hroom : ∀ p ∈ l, p.1.room = rm)
    (hsc : l.Pairwise (fun p q => p.2 < q.2))
    (hids : (l.map (fun p => p.1.id)).Nodup) :
    (appendAll l Redis.empty).messagesOf rm
        = (l.map (fun p => (p.2, p.1.id))).drop (l.length - 100)
      ∧ ∀ p ∈ l, alGet p.1.id (appendAll l Redis.empty).messageHash = some p.1 := by
  induction l using List.reverseRecOn with
  | nil =>
    refine ⟨?_, by simp⟩
    simp [appendAll, Redis.empty, Redis.messagesOf, alGet]
  | append_singleton l p ih =>
    have hp_room : p.1.room = rm := hroom p (by simp)
    have hroom' : ∀ q ∈ l, q.1.room = rm := fun q hq => hroom q (by simp [hq])
    have hsc' : l.Pairwise (fun p q => p.2 < q.2) :=
      (List.pairwise_append.mp hsc).1
    have hlt : ∀ q ∈ l, q.2 < p.2 := fun q hq =>
      (List.pairwise_append.mp hsc).2.2 q hq p (by simp)
    have hids_split : (l.map (fun p => p.1.id)).Nodup ∧
        p.1.id ∉ l.map (fun p => p.1.id) := by
      rw [List.map_append] at hids
      simp only [List.nodup_append, List.map_singleton, List.nodup_singleton,
        List.disjoint_singleton] at hids
      exact ⟨hids.1, hids.2.2⟩
    obtain ⟨hmsgs, hhash⟩ := ih hroom' hsc' hids_split.1
    have hfresh : ∀ e ∈ (appendAll l Redis.empty).messagesOf rm, e.2 ≠ p.1.id := by
      intro e he
      rw [hmsgs] at he
      obtain ⟨q, hq, rfl⟩ := List.mem_map.mp (List.drop_subset _ _ he)
      intro hcontra
      exact hids_split.2 (hcontra ▸ List.mem_map.mpr ⟨q, hq, rfl⟩)
    have hbig : ∀ e ∈ (appendAll l Redis.empty).messagesOf rm, zlt e (p.2, p.1.id) := by
      intro e he
      rw [hmsgs] at he
      obtain ⟨q, hq, rfl⟩ := List.mem_map.mp (List.drop_subset _ _ he)
      exact Or.inl (hlt q hq)
    constructor
    · rw [appendAll_append, ← hp_room, messagesOf_saveChatMessage_self, hp_room, zAdd,
        filter_eq_self_of_ne _ _ hfresh, zsetInsert_eq_append _ _ hbig, hmsgs]
      have hlength : ((l.map (fun p => (p.2, p.1.id))).drop
          ((l.map (fun p => (p.2, p.1.id))).length - 100))
            = (l.map (fun p => (p.2, p.1.id))).drop (l.length - 100) := by
        rw [List.length_map]
      rw [← hlength, zTrim_drop_append]
      simp [List.map_append, List.length_append, List.length_map]
    · intro q hq
      rcases List.mem_append.mp hq with hql | hqp
      · have hne : q.1.id ≠ p.1.id := by
          intro hcontra
          exact hids_split.2 (hcontra ▸ List.mem_map.mpr ⟨q, hql, rfl⟩)
        rw [appendAll_append, alGet_messageHash_saveChatMessage_ne _ _ _ hne]
        exact hhash q hql
      · rw [List.mem_singleton.mp hqp, appendAll_append]
        exact alGet_messageHash_saveChatMessage_self _ _ _

/-! ### Unfolding equations for `joinRoom`. -/

theorem joinRoom_state (s : ServerState) (sid un rm ja : String) (now : Nat) :
    (joinRoom s sid un rm ja now).1
      = { activeUsers :=
            alSet sid { id := sid, username := un, room := rm, joinedAt := ja } s.activeUsers,
          redis :=
            saveUserToRedis { id := sid, username := un, room := rm, joinedAt := ja }
              now s.redis } := rfl

theorem joinRoom_effects (s : ServerState) (sid un rm ja : String) (now : Nat) :
    (joinRoom s sid un rm ja now).2
      = (match alGet sid s.activeUsers with
         | none => []
         | some prev => [Effect.toRoomExceptSender sid prev.room
             (OutEvent.userLeft prev.username (prev.username ++ " left the room") prev.room)]) ++
        [Effect.toRoomExceptSender sid rm
            (OutEvent.userJoined un (un ++ " joined the room") rm),
          Effect.toSocket sid (OutEvent.roomJoined rm un ("Welcome to " ++ rm ++ "!")),
          Effect.toRoom rm (OutEvent.roomUsers (liveRoomUsers
            (alSet sid { id := sid, username := un, room := rm, joinedAt := ja }
              s.activeUsers) rm)),
          Effect.toSocket sid (OutEvent.chatHistory (getRoomMessages rm 50
            (saveUserToRedis { id := sid, username := un, room := rm, joinedAt := ja }
              now s.redis)))] := rfl

theorem usersOf_saveUser_mk_self (sid un rm ja : String) (now : Nat) (r : Redis) :
    (saveUserToRedis { id := sid, username := un, room := rm, joinedAt := ja } now r).usersOf rm
      = setAdd sid (r.usersOf rm) :=
  usersOf_saveUserToRedis_self _ _ _

theorem usersOf_saveUser_mk_ne {room : String} (sid un rm ja : String) (now : Nat)
    (r : Redis) (h : room ≠ rm) :
    (saveUserToRedis { id := sid, username := un, room := rm, joinedAt := ja } now r).usersOf room
      = r.usersOf room :=
  usersOf_saveUserToRedis_ne _ _ _ h

/-! ### The claims. -/

/-- C3: a send-message event from a connection with no active participant
record is silently dropped: no broadcast is emitted, nothing is
persisted, no error is surfaced — the handler returns the state unchanged
with an empty effect list. -/
theorem send_unjoined_noop (s : ServerState) (sid body : String) (tId t1 t2 : Nat)
    (ts : String) (h : alGet sid s.activeUsers = none) :
    sendMessage s sid body tId t1 t2 ts = (s, []) := by
  simp [sendMessage, sendTrace, h]

/-- Witness for C3 at a concrete input: the initial server with an
unjoined connection id. -/
theorem send_unjoined_noop_witness :
    alGet "ghost" ServerState.initial.activeUsers = none
      ∧ sendMessage ServerState.initial "ghost" "hi" 5 5 6 "T" = (ServerState.initial, []) :=
  ⟨by decide, send_unjoined_noop ServerState.initial "ghost" "hi" 5 5 6 "T" (by decide)⟩

/-- C10: the typing handlers mutate no server state — they return the
state unchanged, emitting a typing broadcast to the rest of the sender's
room when joined and nothing when unjoined; the presence map is changed
only by join-room (insert/overwrite), left unchanged by send-message,
and changed only by deletion on disconnect. -/
theorem typing_frame_spec (s : ServerState) (sid un rm ja body ts : String)
    (now tId t1 t2 : Nat) :
    typingStart s sid
        = (s, match alGet sid s.activeUsers with
              | none => []
              | some u => [Effect.toRoomExceptSender sid u.room
                  (OutEvent.userTyping u.username true)])
      ∧ typingStop s sid
        = (s, match alGet sid s.activeUsers with
              | none => []
              | some u => [Effect.toRoomExceptSender sid u.room
                  (OutEvent.userTyping u.username false)])
      ∧ (joinRoom s sid un rm ja now).1.activeUsers
        = alSet sid { id := sid, username := un, room := rm, joinedAt := ja } s.activeUsers
      ∧ (sendMessage s sid body tId t1 t2 ts).1.activeUsers = s.activeUsers
      ∧ (disconnect s sid).1.activeUsers
        = match alGet sid s.activeUsers with
          | none => s.activeUsers
          | some _ => alDel sid s.activeUsers := by
  refine ⟨?_, ?_, rfl, rfl, ?_⟩ <;>
    cases h : alGet sid s.activeUsers <;>
      simp [typingStart, typingStop, disconnect, h]

/-- C5: disconnecting a joined connection removes its record from the
in-memory map and from Redis (user hash gone, id removed from its
current room's persisted set) and emits exactly one "user left" plus one
updated room-users broadcast, both to the record's (latest) room;
disconnecting an unjoined connection does nothing. -/
theorem disconnect_spec (s : ServerState) (sid : String) :
    (alGet sid s.activeUsers = none → disconnect s sid = (s, []))
      ∧ ∀ user, alGet sid s.activeUsers = some user →
          alGet sid (disconnect s sid).1.activeUsers = none
          ∧ lookupUser (disconnect s sid).1.redis sid = none
          ∧ sid ∉ (disconnect s sid).1.redis.usersOf user.room
          ∧ (disconnect s sid).2
            = [Effect.toRoomExceptSender sid user.room
                 (OutEvent.userLeft user.username (user.username ++ " left the room") user.room),
               Effect.toRoom user.room
                 (OutEvent.roomUsers (liveRoomUsers (alDel sid s.activeUsers) user.room))] := by
  constructor
  · intro h
    simp [disconnect, h]
  · intro user hu
    refine ⟨?_, ?_, ?_, ?_⟩
    · simp [disconnect, hu, alGet_alDel_self]
    · simp [disconnect, hu, lookupUser, removeUserFromRedis, alGet_alDel_self]
    · simp [disconnect, hu, removeUserFromRedis, Redis.usersOf, alGet_alSet_self, mem_setRem]
    · simp [disconnect, hu]

/-- Witness for C5 at concrete inputs: a joined connection and an
unjoined one. -/
theorem disconnect_spec_witness :
    (disconnect demoJoined "c1").2
        = [Effect.toRoomExceptSender "c1" "r1"
             (OutEvent.userLeft "alice" "alice left the room" "r1"),
           Effect.toRoom "r1"
             (OutEvent.roomUsers (liveRoomUsers (alDel "c1" demoJoined.activeUsers) "r1"))]
      ∧ disconnect ServerState.initial "ghost" = (ServerState.initial, []) :=
  ⟨((disconnect_spec demoJoined "c1").2
      { id := "c1", username := "alice", room := "r1", joinedAt := "t0" } (by decide)).2.2.2,
    (disconnect_spec ServerState.initial "ghost").1 (by decide)⟩

/-- C9: although send-message calls saveChatMessage twice with the same
message, the persisted state after the send equals the state after a
single save (the hash entry and sorted-set member are simply rewritten),
and the room's log index grows by at most one entry per send. -/
theorem double_save_idempotent (s : ServerState) (sid body : String) (tId t1 t2 : Nat)
    (ts : String) (user : User) (hu : alGet sid s.activeUsers = some user)
    (hlen : (s.redis.messagesOf user.room).length ≤ 100) (ht : t1 ≤ t2) :
    (sendMessage s sid body tId t1 t2 ts).1.redis
        = saveChatMessage (sentMessage user body tId ts) t2 s.redis
      ∧ ((sendMessage s sid body tId t1 t2 ts).1.redis.messagesOf user.room).length
        ≤ (s.redis.messagesOf user.room).length + 1 := by
  have h1 : (sendMessage s sid body tId t1 t2 ts).1.redis
      = saveChatMessage (sentMessage user body tId ts) t2
          (saveChatMessage (sentMessage user body tId ts) t1 s.redis) := by
    simp [sendMessage, sendTrace, hu, applySendAction]
  have hidem := saveChatMessage_idem (sentMessage user body tId ts) t1 t2 s.redis hlen ht
  constructor
  · rw [h1, hidem]
  · rw [h1, hidem]
    have hself : (saveChatMessage (sentMessage user body tId ts) t2 s.redis).messagesOf user.room
        = zTrimKeepLast 100 (zAdd t2 (sentMessage user body tId ts).id
            (s.redis.messagesOf user.room)) :=
      messagesOf_saveChatMessage_self _ _ _
    rw [hself]
    exact le_trans (zTrimKeepLast_length_le_self _ _) (zAdd_length_le _ _ _)

/-- Witness for C9 at a concrete input: one joined connection, empty
log, clock reads 5 then 6. -/
theorem double_save_idempotent_witness :
    (sendMessage demoJoined "c1" "hi" 5 5 6 "T").1.redis
      = saveChatMessage
          (sentMessage { id := "c1", username := "alice", room := "r1", joinedAt := "t0" }
            "hi" 5 "T") 6 demoJoined.redis :=
  (double_save_idempotent demoJoined "c1" "hi" 5 5 6 "T"
    { id := "c1", username := "alice", room := "r1", joinedAt := "t0" }
    (by decide) (by decide) (by decide)).1

/-- C7: in the send-message handler the (awaited) append of the message
to the persisted log strictly precedes the new-message broadcast: the
broadcast step appears after an append step of the same message, and at
the broadcast step the state already includes that save. -/
theorem send_append_before_broadcast (s : ServerState) (sid body : String)
    (tId t1 t2 : Nat) (ts : String) (user : User)
    (hu : alGet sid s.activeUsers = some user) :
    sendTrace s sid body tId t1 t2 ts
        = [SendAction.appendMsg (sentMessage user body tId ts) t1,
           SendAction.emitNewMessage user.room (sentMessage user body tId ts),
           SendAction.appendMsg (sentMessage user body tId ts) t2]
      ∧ ∀ i room mm,
          (sendTrace s sid body tId t1 t2 ts).get? i
              = some (SendAction.emitNewMessage room mm) →
          (∃ j, j < i ∧ ∃ tt, (sendTrace s sid body tId t1 t2 ts).get? j
              = some (SendAction.appendMsg mm tt))
          ∧ ((sendTrace s sid body tId t1 t2 ts).take i).foldl applySendAction s.redis
              = saveChatMessage mm t1 s.redis := by
  have htr : sendTrace s sid body tId t1 t2 ts
      = [SendAction.appendMsg (sentMessage user body tId ts) t1,
         SendAction.emitNewMessage user.room (sentMessage user body tId ts),
         SendAction.appendMsg (sentMessage user body tId ts) t2] := by
    simp [sendTrace, hu]
  refine ⟨htr, ?_⟩
  intro i room mm hget
  rw [htr] at hget ⊢
  rcases i with _ | _ | _ | n
  · simp [List.get?] at hget
  · simp only [List.get?, Option.some.injEq] at hget
    have hmm : sentMessage user body tId ts = mm := by
      cases hget
      rfl
    refine ⟨⟨0, by omega, t1, by rw [← hmm]; rfl⟩, ?_⟩
    rw [← hmm]
    rfl
  · simp [List.get?] at hget
  · simp [List.get?] at hget

/-- C6 (counterexample): two messages created in sequence by the same
process within one millisecond (`Date.now()` returns 1000 both times)
carry the identical id "1000" — the later id is not strictly greater
than the earlier one, and ids are not unique within a process. -/
theorem send_id_counterexample :
    (sendMessage demoJoined "c1" "a" 1000 1000 1000 "T").2
        = [Effect.toRoom "r1" (OutEvent.newMessage
            { id := "1000", username := "alice", message := "a",
              timestamp := "T", room := "r1" })]
      ∧ (sendMessage (sendMessage demoJoined "c1" "a" 1000 1000 1000 "T").1
            "c1" "b" 1000 1000 1000 "T").2
        = [Effect.toRoom "r1" (OutEvent.newMessage
            { id := "1000", username := "alice", message := "b",
              timestamp := "T", room := "r1" })]
      ∧ ¬ ("1000" : String) < "1000" := by
  refine ⟨by decide, by decide, lt_irrefl _⟩

/-- C6 (amended): a message's id is the decimal rendering of the
`Date.now()` clock read that created it; across two sends in sequence
the clock reads are non-decreasing, so the later id renders a
greater-or-equal timestamp — equal-millisecond sends yield identical
(not strictly greater, not unique) ids. -/
theorem send_id_clock_spec (s : ServerState) (sid b1 b2 : String)
    (tId1 tId2 t1 t2 t3 t4 : Nat) (ts1 ts2 : String) (user : User)
    (hu : alGet sid s.activeUsers = some user) (ht : tId1 ≤ tId2) :
    (sendMessage s sid b1 tId1 t1 t2 ts1).2
        = [Effect.toRoom user.room (OutEvent.newMessage (sentMessage user b1 tId1 ts1))]
      ∧ (sendMessage (sendMessage s sid b1 tId1 t1 t2 ts1).1 sid b2 tId2 t3 t4 ts2).2
        = [Effect.toRoom user.room (OutEvent.newMessage (sentMessage user b2 tId2 ts2))]
      ∧ (sentMessage user b1 tId1 ts1).id = Nat.repr tId1
      ∧ (sentMessage user b2 tId2 ts2).id = Nat.repr tId2
      ∧ tId1 ≤ tId2
      ∧ (tId1 = tId2 → (sentMessage user b1 tId1 ts1).id = (sentMessage user b2 tId2 ts2).id) := by
  refine ⟨?_, ?_, rfl, rfl, ht, fun h => by rw [sentMessage, sentMessage, h]⟩
  · simp [sendMessage, sendTrace, hu, sendActionEffect]
  · simp [sendMessage, sendTrace, hu, sendActionEffect]

/-- Witness for the amended C6 at a concrete input: sends at clock
reads 5 and then 7. -/
theorem send_id_clock_spec_witness :
    (sendMessage demoJoined "c1" "a" 5 5 5 "T").2
        = [Effect.toRoom "r1" (OutEvent.newMessage
            (sentMessage { id := "c1", username := "alice", room := "r1", joinedAt := "t0" }
              "a" 5 "T"))]
      ∧ (sentMessage { id := "c1", username := "alice", room := "r1", joinedAt := "t0" }
          "a" 5 "T").id = Nat.repr 5 :=
  ⟨(send_id_clock_spec demoJoined "c1" "a" "b" 5 7 5 5 7 7 "T" "T2"
      { id := "c1", username := "alice", room := "r1", joinedAt := "t0" }
      (by decide) (by decide)).1,
    (send_id_clock_spec demoJoined "c1" "a" "b" 5 7 5 5 7 7 "T" "T2"
      { id := "c1", username := "alice", room := "r1", joinedAt := "t0" }
      (by decide) (by decide)).2.2.1⟩

/-- C1 (amended): after `join(u, r1)` then `join(u, r2)` on one
connection, the in-memory record maps the connection to `r2` only, the
connection is in `r2`'s persisted set and appears in the live `r2`
participant list, and the "user left" notice to `r1` is the first effect
of the second join — but the connection also remains in `r1`'s persisted
user set (the handler never removes it from the previous room's set). -/
theorem join_switch_room_spec (s : ServerState) (sid u1 u2 r1 r2 ja1 ja2 : String)
    (n1 n2 : Nat) :
    alGet sid (joinRoom (joinRoom s sid u1 r1 ja1 n1).1 sid u2 r2 ja2 n2).1.activeUsers
        = some { id := sid, username := u2, room := r2, joinedAt := ja2 }
      ∧ sid ∈ (joinRoom (joinRoom s sid u1 r1 ja1 n1).1 sid u2 r2 ja2 n2).1.redis.usersOf r2
      ∧ sid ∈ (joinRoom (joinRoom s sid u1 r1 ja1 n1).1 sid u2 r2 ja2 n2).1.redis.usersOf r1
      ∧ (joinRoom (joinRoom s sid u1 r1 ja1 n1).1 sid u2 r2 ja2 n2).2.head?
        = some (Effect.toRoomExceptSender sid r1
            (OutEvent.userLeft u1 (u1 ++ " left the room") r1))
      ∧ (sid, u2) ∈ liveRoomUsers
          (joinRoom (joinRoom s sid u1 r1 ja1 n1).1 sid u2 r2 ja2 n2).1.activeUsers r2 := by
  refine ⟨alGet_alSet_self _ _ _, ?_, ?_, ?_, ?_⟩
  · show sid ∈ (saveUserToRedis { id := sid, username := u2, room := r2, joinedAt := ja2 } n2
        (saveUserToRedis { id := sid, username := u1, room := r1, joinedAt := ja1 } n1
          s.redis)).usersOf r2
    rw [usersOf_saveUser_mk_self]
    exact mem_setAdd_self _ _
  · show sid ∈ (saveUserToRedis { id := sid, username := u2, room := r2, joinedAt := ja2 } n2
        (saveUserToRedis { id := sid, username := u1, room := r1, joinedAt := ja1 } n1
          s.redis)).usersOf r1
    by_cases hr : r1 = r2
    · subst hr
      rw [usersOf_saveUser_mk_self]
      exact mem_setAdd_self _ _
    · rw [usersOf_saveUser_mk_ne _ _ _ _ _ _ hr, usersOf_saveUser_mk_self]
      exact mem_setAdd_self _ _
  · rw [joinRoom_effects]
    rw [show alGet sid (joinRoom s sid u1 r1 ja1 n1).1.activeUsers
        = some { id := sid, username := u1, room := r1, joinedAt := ja1 } from
      alGet_alSet_self _ _ _]
    rfl
  · exact liveRoomUsers_mem_of _ sid
      { id := sid, username := u2, room := r2, joinedAt := ja2 }
      (pair_mem_alSet _ _ _) rfl

/-- C1 (counterexample): joining `r1` then `r2` leaves the connection in
`r1`'s persisted participant set, so after the second join the
connection does not appear "in no other room's participant set
(in-memory and persisted)" as the claim states. -/
theorem join_switch_room_counterexample :
    ("r1" : String) ≠ "r2"
      ∧ "c1" ∈ (joinRoom (joinRoom ServerState.initial "c1" "alice" "r1" "t0" 0).1
          "c1" "alice" "r2" "t1" 1).1.redis.usersOf "r1" := by
  refine ⟨by decide, by decide⟩

/-- C8: joining a new room leaves the previous room's persisted user set
unchanged — after `join(u, r1)` then `join(u, r2)` the connection id is
still a member of `r1`'s persisted set, and `getRoomUsers(r1)` (the
`/api/redis/room/r1/users` endpoint) still returns the user, whose
stored record now names room `r2`. -/
theorem previous_room_set_unchanged (s : ServerState) (sid u1 u2 r1 r2 ja1 ja2 : String)
    (n1 n2 : Nat) (hsid : sid ≠ "") :
    sid ∈ (joinRoom (joinRoom s sid u1 r1 ja1 n1).1 sid u2 r2 ja2 n2).1.redis.usersOf r1
      ∧ lookupUser (joinRoom (joinRoom s sid u1 r1 ja1 n1).1 sid u2 r2 ja2 n2).1.redis sid
        = some { id := sid, username := u2, room := r2, joinedAt := ja2 }
      ∧ { id := sid, username := u2, room := r2, joinedAt := ja2 }
        ∈ getRoomUsers r1 (joinRoom (joinRoom s sid u1 r1 ja1 n1).1 sid u2 r2 ja2 n2).1.redis := by
  have hmem : sid ∈ (saveUserToRedis { id := sid, username := u2, room := r2, joinedAt := ja2 }
      n2 (saveUserToRedis { id := sid, username := u1, room := r1, joinedAt := ja1 } n1
        s.redis)).usersOf r1 := by
    by_cases hr : r1 = r2
    · subst hr
      rw [usersOf_saveUser_mk_self]
      exact mem_setAdd_self _ _
    · rw [usersOf_saveUser_mk_ne _ _ _ _ _ _ hr, usersOf_saveUser_mk_self]
      exact mem_setAdd_self _ _
  have hhash : alGet sid (saveUserToRedis
      { id := sid, username := u2, room := r2, joinedAt := ja2 } n2
      (saveUserToRedis { id := sid, username := u1, room := r1, joinedAt := ja1 } n1
        s.redis)).userHash = some { id := sid, username := u2, room := r2, joinedAt := ja2 } :=
    alGet_alSet_self _ _ _
  have hlookup : lookupUser (saveUserToRedis
      { id := sid, username := u2, room := r2, joinedAt := ja2 } n2
      (saveUserToRedis { id := sid, username := u1, room := r1, joinedAt := ja1 } n1
        s.redis)) sid = some { id := sid, username := u2, room := r2, joinedAt := ja2 } := by
    show (alGet sid (saveUserToRedis
        { id := sid, username := u2, room := r2, joinedAt := ja2 } n2
        (saveUserToRedis { id := sid, username := u1, room := r1, joinedAt := ja1 } n1
          s.redis)).userHash).bind _ = _
    rw [hhash]
    simp [hsid]
  refine ⟨hmem, hlookup, ?_⟩
  exact List.mem_filterMap.mpr ⟨sid, hmem, hlookup⟩

/-- Witness for C8 at a concrete input. -/
theorem previous_room_set_unchanged_witness :
    "c1" ∈ (joinRoom (joinRoom ServerState.initial "c1" "alice" "r1" "t0" 0).1
        "c1" "alice" "r2" "t1" 1).1.redis.usersOf "r1"
      ∧ { id := "c1", username := "alice", room := "r2", joinedAt := "t1" }
        ∈ getRoomUsers "r1" (joinRoom (joinRoom ServerState.initial "c1" "alice" "r1" "t0" 0).1
            "c1" "alice" "r2" "t1" 1).1.redis :=
  ⟨(previous_room_set_unchanged ServerState.initial "c1" "alice" "alice" "r1" "r2" "t0" "t1"
      0 1 (by decide)).1,
    (previous_room_set_unchanged ServerState.initial "c1" "alice" "alice" "r1" "r2" "t0" "t1"
      0 1 (by decide)).2.2⟩

/-- Witness for C7 at a concrete input. -/
theorem send_append_before_broadcast_witness :
    sendTrace demoJoined "c1" "hi" 5 5 6 "T"
      = [SendAction.appendMsg
           (sentMessage { id := "c1", username := "alice", room := "r1", joinedAt := "t0" }
             "hi" 5 "T") 5,
         SendAction.emitNewMessage "r1"
           (sentMessage { id := "c1", username := "alice", room := "r1", joinedAt := "t0" }
             "hi" 5 "T"),
         SendAction.appendMsg
           (sentMessage { id := "c1", username := "alice", room := "r1", joinedAt := "t0" }
             "hi" 5 "T") 6] :=
  (send_append_before_broadcast demoJoined "c1" "hi" 5 5 6 "T"
    { id := "c1", username := "alice", room := "r1", joinedAt := "t0" } (by decide)).1

/-- C2: after appending more than 100 messages (fresh ids, strictly
increasing clock scores) to a room, `getRoomMessages(room, 200)` returns
exactly the most recent 100 messages in append (ascending-timestamp)
order, and no room's persisted index ever exceeds 100 entries. -/
theorem message_log_cap_spec (rm : String) (l : List (ChatMessage × Nat))
    (hroom : ∀ p ∈ l, p.1.room = rm)
    (hid0 : ∀ p ∈ l, p.1.id ≠ "")
    (hsc : l.Pairwise (fun p q => p.2 < q.2))
    (hids : (l.map (fun p => p.1.id)).Nodup)
    (hN : 100 < l.length) :
    getRoomMessages rm 200 (appendAll l Redis.empty)
        = (l.map Prod.fst).drop (l.length - 100)
      ∧ (getRoomMessages rm 200 (appendAll l Redis.empty)).length = 100
      ∧ (l.drop (l.length - 100)).Pairwise (fun p q => p.2 < q.2)
      ∧ ∀ room, ((appendAll l Redis.empty).messagesOf room).length ≤ 100 := by
  obtain ⟨hmsgs, hhash⟩ := appendAll_spec rm l hroom hsc hids
  have hmain : getRoomMessages rm 200 (appendAll l Redis.empty)
      = (l.map Prod.fst).drop (l.length - 100) := by
    simp only [getRoomMessages]
    rw [hmsgs]
    have hzslen : ((l.map (fun p => (p.2, p.1.id))).drop (l.length - 100)).length = 100 := by
      simp only [List.length_drop, List.length_map]
      omega
    have hrange : zRangeLastMembers 200 ((l.map (fun p => (p.2, p.1.id))).drop (l.length - 100))
        = ((l.map (fun p => (p.2, p.1.id))).drop (l.length - 100)).map (fun p => p.2) := by
      simp only [zRangeLastMembers, hzslen]
      rw [show (100 : Nat) - 200 = 0 from rfl, List.drop_zero]
    rw [hrange]
    have hmap : ((l.map (fun p => (p.2, p.1.id))).drop (l.length - 100)).map (fun p => p.2)
        = (l.drop (l.length - 100)).map (fun q => q.1.id) := by
      rw [← List.map_drop, List.map_map]
      rfl
    rw [hmap]
    rw [filterMap_map_eq_map (lookupMessage (appendAll l Redis.empty))
      (fun q => q.1.id) Prod.fst (l.drop (l.length - 100)) ?_]
    · rw [List.map_drop]
    · intro q hq
      have hql : q ∈ l := List.drop_subset _ _ hq
      show (alGet q.1.id (appendAll l Redis.empty).messageHash).bind _ = _
      rw [hhash q hql]
      simp [hid0 q hql]
  refine ⟨hmain, ?_, hsc.sublist (List.drop_sublist _ _), ?_⟩
  · rw [hmain]
    simp only [List.length_drop, List.length_map]
    omega
  · exact appendAll_cap l Redis.empty
      (fun room => by simp [Redis.empty, Redis.messagesOf, alGet])

/-- Witness for C2 at a concrete input: 101 appended messages. -/
theorem message_log_cap_spec_witness :
    getRoomMessages "demo" 200 (appendAll (demoPairs 101) Redis.empty)
        = ((demoPairs 101).map Prod.fst).drop ((demoPairs 101).length - 100)
      ∧ (getRoomMessages "demo" 200 (appendAll (demoPairs 101) Redis.empty)).length = 100 := by
  have h := message_log_cap_spec "demo" (demoPairs 101)
    (by decide) (by decide) (by decide) (by decide) (by decide)
  exact ⟨h.1, h.2.1⟩

/-- C4: joining a room whose persisted log holds at least 50 messages
(all of whose indexed records resolve) delivers to the joining
connection — and only to it — a chat-history event holding exactly the
50 most recent persisted messages, resolved from the index suffix in
chronological (index) order. -/
theorem join_history_spec (s : ServerState) (sid un rm ja : String) (now : Nat)
    (hlen : 50 ≤ (s.redis.messagesOf rm).length)
    (hres : ∀ e ∈ s.redis.messagesOf rm, (lookupMessage s.redis e.2).isSome) :
    Effect.toSocket sid (OutEvent.chatHistory (getRoomMessages rm 50 s.redis))
        ∈ (joinRoom s sid un rm ja now).2
      ∧ (∀ eff ∈ (joinRoom s sid un rm ja now).2, ∀ msgs,
          effectPayload eff = OutEvent.chatHistory msgs →
          eff = Effect.toSocket sid (OutEvent.chatHistory (getRoomMessages rm 50 s.redis)))
      ∧ (getRoomMessages rm 50 s.redis).length = 50
      ∧ getRoomMessages rm 50 s.redis
        = ((s.redis.messagesOf rm).drop ((s.redis.messagesOf rm).length - 50)).filterMap
            (fun e => lookupMessage s.redis e.2) := by
  have hhist : getRoomMessages rm 50
      (saveUserToRedis { id := sid, username := un, room := rm, joinedAt := ja } now s.redis)
        = getRoomMessages rm 50 s.redis := rfl
  refine ⟨?_, ?_, ?_, ?_⟩
  · rw [joinRoom_effects]
    rw [hhist]
    simp
  · intro eff heff msgs hpay
    rw [joinRoom_effects] at heff
    rcases List.mem_append.mp heff with hL | hR
    · cases halGet : alGet sid s.activeUsers with
      | none => rw [halGet] at hL; simp at hL
      | some prev =>
        rw [halGet] at hL
        simp only [List.mem_singleton] at hL
        subst hL
        simp [effectPayload] at hpay
    · rw [hhist] at hR
      simp only [List.mem_cons, List.not_mem_nil, or_false] at hR
      rcases hR with rfl | rfl | rfl | rfl
      · simp [effectPayload] at hpay
      · simp [effectPayload] at hpay
      · simp [effectPayload] at hpay
      · rfl
  · have hAll : ∀ x ∈ zRangeLastMembers 50 (s.redis.messagesOf rm),
        (lookupMessage s.redis x).isSome := by
      intro x hx
      simp only [zRangeLastMembers] at hx
      obtain ⟨e, he, rfl⟩ := List.mem_map.mp hx
      exact hres e (List.drop_subset _ _ he)
    have h1 : (getRoomMessages rm 50 s.redis).length
        = (zRangeLastMembers 50 (s.redis.messagesOf rm)).length :=
      filterMap_length_of_isSome _ _ hAll
    rw [h1]
    simp only [zRangeLastMembers, List.length_map, List.length_drop]
    omega
  · simp only [getRoomMessages, zRangeLastMembers, List.filterMap_map]
    rfl

set_option maxRecDepth 100000 in
/-- Witness for C4 at a concrete input: a join into a room with exactly
50 persisted messages. -/
theorem join_history_spec_witness :
    (getRoomMessages "demo" 50 demoServer50.redis).length = 50
      ∧ Effect.toSocket "c2" (OutEvent.chatHistory (getRoomMessages "demo" 50 demoServer50.redis))
        ∈ (joinRoom demoServer50 "c2" "bob" "demo" "t9" 9).2 := by
  have h := join_history_spec demoServer50 "c2" "bob" "demo" "t9" 9 ?_ ?_
  · exact ⟨h.2.2.1, h.1⟩
  · decide
  · decide

end CheatChat
